import Mathlib

set_option maxHeartbeats 1000000
set_option maxRecDepth 100000

namespace Sudoku

/-- A 9x9 Sudoku grid: cell `(i, j)` holds `0` for empty or a digit `1`-`9`.
Shallow embedding of the Python `Grid = List[List[int]]` from `sudoku_solver.py`,
represented as a total function on in-range coordinates. -/
abbrev Grid := Fin 9 → Fin 9 → Nat

/-- Bounds-guarded cell read, mirroring the Python `grid[i][j]` with `Nat` indices
(all call sites stay in range, so the default `0` is never used on real runs). -/
def cellN (g : Grid) (i j : Nat) : Nat :=
  if hi : i < 9 then if hj : j < 9 then g ⟨i, hi⟩ ⟨j, hj⟩ else 0 else 0

/-- The in-place assignment `grid[r][c] = n`, modelled as a functional update. -/
def setCell (g : Grid) (r c : Fin 9) (n : Nat) : Grid :=
  fun i j => if i = r ∧ j = c then n else g i j

/-- `is_valid(grid, r, c, n)` from the source: `True` iff `n` occurs nowhere in
row `r`, nowhere in column `c`, and nowhere in the 3x3 box with top-left corner
`(r // 3 * 3, c // 3 * 3)`. The three scans run over all nine cells of the row
and column and the full box, exactly as the Python loops do. -/
def is_valid (g : Grid) (r c : Fin 9) (n : Nat) : Bool :=
  if (List.range 9).any (fun x => cellN g r.val x == n) then false
  else if (List.range 9).any (fun x => cellN g x c.val == n) then false
  else if (List.range' (r.val / 3 * 3) 3).any
      (fun i => (List.range' (c.val / 3 * 3) 3).any (fun j => cellN g i j == n)) then false
  else true

/-- The candidate list `[n for n in range(1, 10) if is_valid(grid, r, c, n)]`. -/
def candidates (g : Grid) (r c : Fin 9) : List Nat :=
  (List.range' 1 9).filter (fun n => is_valid g r c n)

/-- The 81 cells in row-major order, the scan order of the Python nested
`for r in range(9): for c in range(9)` loops. -/
def allCells : List (Fin 9 × Fin 9) :=
  List.product (List.finRange 9) (List.finRange 9)

/-- The scanning loop of `find_empty_with_fewest_candidates`, with the running
`best` accumulator. Mirrors the source: an empty cell with no candidates is
returned at once with `[]`; a strictly better cell replaces `best`; directly
after an update a single-candidate cell is returned at once. -/
def find_go (g : Grid) :
    List (Fin 9 × Fin 9) → Option (Fin 9 × Fin 9 × List Nat) →
      Option (Fin 9 × Fin 9 × List Nat)
  | [], best => best
  | p :: rest, best =>
    if g p.1 p.2 = 0 then
      if candidates g p.1 p.2 = [] then some (p.1, p.2, [])
      else
        match best with
        | none =>
          if (candidates g p.1 p.2).length = 1 then some (p.1, p.2, candidates g p.1 p.2)
          else find_go g rest (some (p.1, p.2, candidates g p.1 p.2))
        | some b =>
          if (candidates g p.1 p.2).length < b.2.2.length then
            if (candidates g p.1 p.2).length = 1 then some (p.1, p.2, candidates g p.1 p.2)
            else find_go g rest (some (p.1, p.2, candidates g p.1 p.2))
          else find_go g rest best
    else find_go g rest best

/-- `find_empty_with_fewest_candidates(grid)`: MRV cell selection over the
row-major scan, `none` when the puzzle is complete. -/
def find_empty_with_fewest_candidates (g : Grid) : Option (Fin 9 × Fin 9 × List Nat) :=
  find_go g allCells none

/-- Modelled from the spec: the comparator selector of the refinement claim, a
full row-major scan that keeps the first-encountered empty cell with the minimum
candidate count (ties broken earliest) and performs neither early exit. -/
def scan_full (g : Grid) :
    List (Fin 9 × Fin 9) → Option (Fin 9 × Fin 9 × List Nat) →
      Option (Fin 9 × Fin 9 × List Nat)
  | [], best => best
  | p :: rest, best =>
    if g p.1 p.2 = 0 then
      match best with
      | none => scan_full g rest (some (p.1, p.2, candidates g p.1 p.2))
      | some b =>
        if (candidates g p.1 p.2).length < b.2.2.length then
          scan_full g rest (some (p.1, p.2, candidates g p.1 p.2))
        else scan_full g rest best
    else scan_full g rest best

/-- Modelled from the spec: the full-scan selector without early exits. -/
def select_full_scan (g : Grid) : Option (Fin 9 × Fin 9 × List Nat) :=
  scan_full g allCells none

/-- The candidate loop of `solve`: `grid[r][c] = n`, recurse, propagate success
with the mutated grid, otherwise `grid[r][c] = 0` and try the next candidate. -/
def tryLoop (solver : Grid → Bool × Grid) (r c : Fin 9) : Grid → List Nat → Bool × Grid
  | g, [] => (false, g)
  | g, n :: rest =>
    if (solver (setCell g r c n)).1 then solver (setCell g r c n)
    else tryLoop solver r c (setCell (solver (setCell g r c n)).2 r c 0) rest

/-- The recursive backtracking search of `solve`, parameterised by the cell
selector and by a recursion-depth fuel. The Python recursion has no fuel; fuel
`82` always suffices (the depth is bounded by the number of empty cells, at most
81), which is proved as the termination claim. -/
def solveWith (sel : Grid → Option (Fin 9 × Fin 9 × List Nat)) :
    Nat → Grid → Bool × Grid
  | 0, g => (false, g)
  | fuel + 1, g =>
    match sel g with
    | none => (true, g)
    | some (r, c, cand) => tryLoop (solveWith sel fuel) r c g cand

/-- `solve` at a given fuel, with the source's MRV selector. -/
def solveGo : Nat → Grid → Bool × Grid :=
  solveWith find_empty_with_fewest_candidates

/-- `solve(grid)`: returns the success flag and the final in-place state of the
grid. Fuel 82 exceeds the maximal recursion depth 81, so this is total. -/
def solve (g : Grid) : Bool × Grid :=
  solveGo 82 g

/-- Modelled from the spec: the variant solver of the refinement claim, using
the full-scan selector without early exits. -/
def solve_full_scan (g : Grid) : Bool × Grid :=
  solveWith select_full_scan 82 g

/-- Number of empty cells of a grid (the decreasing measure of the search). -/
def emptyCount (g : Grid) : Nat :=
  (Finset.univ.filter (fun p : Fin 9 × Fin 9 => g p.1 p.2 = 0)).card

/-- Two cells lie in a common row, column, or 3x3 box. -/
abbrev sameUnit (p q : Fin 9 × Fin 9) : Prop :=
  p.1 = q.1 ∨ p.2 = q.2 ∨ (p.1.val / 3 = q.1.val / 3 ∧ p.2.val / 3 = q.2.val / 3)

/-- No placed (nonzero) digit is duplicated inside any row, column, or box. -/
abbrev Consistent (g : Grid) : Prop :=
  ∀ p q : Fin 9 × Fin 9, p ≠ q → sameUnit p q → g p.1 p.2 ≠ 0 → g p.1 p.2 ≠ g q.1 q.2

/-- Every cell value is at most 9 (so cells hold `0` or a digit `1`-`9`). -/
abbrev InRange (g : Grid) : Prop :=
  ∀ i j : Fin 9, g i j ≤ 9

/-- `g'` agrees with `g` on every cell that is nonzero in `g`. -/
def Extends (g g' : Grid) : Prop :=
  ∀ i j : Fin 9, g i j ≠ 0 → g' i j = g i j

/-- The digit `n` occurs somewhere in row `r`, in column `c`, or in the box of
`(r, c)` (the scan region of `is_valid`, the queried cell included). -/
def appears (g : Grid) (r c : Fin 9) (n : Nat) : Prop :=
  (∃ x : Fin 9, g r x = n) ∨ (∃ x : Fin 9, g x c = n) ∨
    (∃ i j : Fin 9, i.val / 3 = r.val / 3 ∧ j.val / 3 = c.val / 3 ∧ g i j = n)

/-- The digit `n` occurs in the scan region of `is_valid` at a cell other than
the queried cell `(r, c)` itself. -/
def appearsElsewhere (g : Grid) (r c : Fin 9) (n : Nat) : Prop :=
  (∃ x : Fin 9, x ≠ c ∧ g r x = n) ∨ (∃ x : Fin 9, x ≠ r ∧ g x c = n) ∨
    (∃ i j : Fin 9, ¬(i = r ∧ j = c) ∧ i.val / 3 = r.val / 3 ∧ j.val / 3 = c.val / 3 ∧ g i j = n)

/-- `G` is a valid completion of `g`: it extends the placed digits of `g`, is
completely filled with digits `1`-`9`, and satisfies the Sudoku constraints. -/
def Completes (g G : Grid) : Prop :=
  Extends g G ∧ (∀ i j : Fin 9, G i j ≠ 0) ∧ InRange G ∧ Consistent G

/-- Some empty cell of `g` has no legal candidate (an immediate dead end). -/
abbrev DeadCase (g : Grid) : Prop :=
  ∃ r c : Fin 9, g r c = 0 ∧ candidates g r c = []

/-- The characters kept by `parse_input`: digits and the dot placeholder. -/
def puzAlphabet : List Char :=
  ['0', '1', '2', '3', '4', '5', '6', '7', '8', '9', '.']

/-- Value of one filtered character: `0` for `'0'`/`'.'`, else its digit. -/
def charVal (ch : Char) : Nat :=
  if ch = '0' ∨ ch = '.' then 0 else ch.toNat - 48

/-- `parse_input(text)`: keep only digit/dot characters, fail (Python raises
`ValueError`, modelled as `none`) unless exactly 81 remain, then cut the value
list into nine rows of nine. -/
def parse_input (text : List Char) : Option Grid :=
  if (text.filter (fun ch => ch ∈ puzAlphabet)).length = 81 then
    some (fun i j =>
      (((List.range 9).map
          (fun k => (((text.filter (fun ch => ch ∈ puzAlphabet)).map charVal).drop (k * 9)).take 9)).getD
        i.val []).getD j.val 0)
  else none

/-- Build a grid from a row-major list of rows (test fixture helper). -/
def mkGrid (rows : List (List Nat)) : Grid :=
  fun i j => (rows.getD i.val []).getD j.val 0

/-- The fully filled grid with every cell equal to 1: complete but invalid. -/
def onesGrid : Grid := fun _ _ => 1

/-- The empty grid. -/
def zeroGrid : Grid := fun _ _ => 0

/-- A valid, completely solved grid (the classic textbook solution). -/
def solvedGrid : Grid := mkGrid
  [[5, 3, 4, 6, 7, 8, 9, 1, 2],
   [6, 7, 2, 1, 9, 5, 3, 4, 8],
   [1, 9, 8, 3, 4, 2, 5, 6, 7],
   [8, 5, 9, 7, 6, 1, 4, 2, 3],
   [4, 2, 6, 8, 5, 3, 7, 9, 1],
   [7, 1, 3, 9, 2, 4, 8, 5, 6],
   [9, 6, 1, 5, 3, 7, 2, 8, 4],
   [2, 8, 7, 4, 1, 9, 6, 3, 5],
   [3, 4, 5, 2, 8, 6, 1, 7, 9]]

/-- `solvedGrid` with cell (0,0) emptied: solvable in one forced step. -/
def nearGrid : Grid := mkGrid
  [[0, 3, 4, 6, 7, 8, 9, 1, 2],
   [6, 7, 2, 1, 9, 5, 3, 4, 8],
   [1, 9, 8, 3, 4, 2, 5, 6, 7],
   [8, 5, 9, 7, 6, 1, 4, 2, 3],
   [4, 2, 6, 8, 5, 3, 7, 9, 1],
   [7, 1, 3, 9, 2, 4, 8, 5, 6],
   [9, 6, 1, 5, 3, 7, 2, 8, 4],
   [2, 8, 7, 4, 1, 9, 6, 3, 5],
   [3, 4, 5, 2, 8, 6, 1, 7, 9]]

/-- A consistent grid whose cell (0,8) has no candidate: row 0 uses 1-8 and
column 8 already holds a 9, so the puzzle is a dead end at once. -/
def deadGrid : Grid := mkGrid
  [[1, 2, 3, 4, 5, 6, 7, 8, 0],
   [], [], [], [], [], [], [],
   [0, 0, 0, 0, 0, 0, 0, 0, 9]]

/-- A grid where cell (0,0) has the single candidate 1 (row 0 holds 2-9) while
the later cell (8,8) has no candidate at all (row 8 holds 2-9 and column 8
holds 1): the MRV scan exits at (0,0) before seeing the dead cell. -/
def earlyExitGrid : Grid := mkGrid
  [[0, 2, 3, 4, 5, 6, 7, 8, 9],
   [], [], [], [],
   [0, 0, 0, 0, 0, 0, 0, 0, 1],
   [], [],
   [2, 3, 4, 5, 6, 7, 8, 9, 0]]

theorem cellN_eq (g : Grid) (i j : Nat) (hi : i < 9) (hj : j < 9) :
    cellN g i j = g ⟨i, hi⟩ ⟨j, hj⟩ := by
  simp [cellN, hi, hj]

theorem cellN_fin (g : Grid) (i j : Fin 9) : cellN g i.val j.val = g i j := by
  rw [cellN_eq g i.val j.val i.isLt j.isLt]

theorem setCell_same (g : Grid) (r c : Fin 9) (n : Nat) : setCell g r c n r c = n := by
  simp [setCell]

theorem setCell_other (g : Grid) (r c : Fin 9) (n : Nat) (i j : Fin 9)
    (h : ¬(i = r ∧ j = c)) : setCell g r c n i j = g i j := by
  simp [setCell, h]

theorem setCell_setCell (g : Grid) (r c : Fin 9) (a b : Nat) :
    setCell (setCell g r c a) r c b = setCell g r c b := by
  funext i j
  by_cases h : i = r ∧ j = c <;> simp [setCell, h]

theorem setCell_zero (g : Grid) (r c : Fin 9) (h : g r c = 0) : setCell g r c 0 = g := by
  funext i j
  by_cases hij : i = r ∧ j = c
  · obtain ⟨h1, h2⟩ := hij
    subst h1; subst h2
    simp [setCell, h]
  · simp [setCell, hij]

theorem pair_eq (q : Fin 9 × Fin 9) (r c : Fin 9) (h1 : q.1 = r) (h2 : q.2 = c) :
    q = (r, c) := by
  cases q; simp_all

theorem mem_allCells (p : Fin 9 × Fin 9) : p ∈ allCells := by
  cases p with
  | mk a b => exact List.pair_mem_product.mpr ⟨List.mem_finRange a, List.mem_finRange b⟩

theorem rowScan_iff (g : Grid) (r : Fin 9) (n : Nat) :
    ((List.range 9).any (fun x => cellN g r.val x == n)) = true ↔ ∃ x : Fin 9, g r x = n := by
  simp only [List.any_eq_true, List.mem_range, beq_iff_eq]
  constructor
  · rintro ⟨x, hx, hcell⟩
    exact ⟨⟨x, hx⟩, by rw [← cellN_fin g r ⟨x, hx⟩]; exact hcell⟩
  · rintro ⟨x, hx⟩
    exact ⟨x.val, x.isLt, by rw [cellN_fin g r x]; exact hx⟩

theorem colScan_iff (g : Grid) (c : Fin 9) (n : Nat) :
    ((List.range 9).any (fun x => cellN g x c.val == n)) = true ↔ ∃ x : Fin 9, g x c = n := by
  simp only [List.any_eq_true, List.mem_range, beq_iff_eq]
  constructor
  · rintro ⟨x, hx, hcell⟩
    exact ⟨⟨x, hx⟩, by rw [← cellN_fin g ⟨x, hx⟩ c]; exact hcell⟩
  · rintro ⟨x, hx⟩
    exact ⟨x.val, x.isLt, by rw [cellN_fin g x c]; exact hx⟩

theorem boxScan_iff (g : Grid) (r c : Fin 9) (n : Nat) :
    ((List.range' (r.val / 3 * 3) 3).any
      (fun i => (List.range' (c.val / 3 * 3) 3).any (fun j => cellN g i j == n))) = true ↔
      ∃ i j : Fin 9, i.val / 3 = r.val / 3 ∧ j.val / 3 = c.val / 3 ∧ g i j = n := by
  simp only [List.any_eq_true, List.mem_range'_1, beq_iff_eq]
  constructor
  · rintro ⟨i, ⟨hi1, hi2⟩, j, ⟨hj1, hj2⟩, hcell⟩
    have hr9 := r.isLt
    have hc9 := c.isLt
    have hi9 : i < 9 := by omega
    have hj9 : j < 9 := by omega
    refine ⟨⟨i, hi9⟩, ⟨j, hj9⟩, ?_, ?_, ?_⟩
    · show i / 3 = r.val / 3
      omega
    · show j / 3 = c.val / 3
      omega
    · rw [← cellN_eq g i j hi9 hj9]; exact hcell
  · rintro ⟨i, j, hi3, hj3, hcell⟩
    have hr9 := r.isLt
    have hc9 := c.isLt
    have hi9 := i.isLt
    have hj9 := j.isLt
    refine ⟨i.val, ⟨by omega, by omega⟩, j.val, ⟨by omega, by omega⟩, ?_⟩
    rw [cellN_eq g i.val j.val i.isLt j.isLt]
    simpa using hcell

theorem is_valid_false_iff (g : Grid) (r c : Fin 9) (n : Nat) :
    is_valid g r c n = false ↔ appears g r c n := by
  unfold is_valid appears
  split_ifs with h1 h2 h3
  · simp only [true_iff]
    exact Or.inl ((rowScan_iff g r n).mp h1)
  · simp only [true_iff]
    exact Or.inr (Or.inl ((colScan_iff g c n).mp h2))
  · simp only [true_iff]
    exact Or.inr (Or.inr ((boxScan_iff g r c n).mp h3))
  · simp only [Bool.true_eq_false, false_iff]
    rintro (h | h | h)
    · exact h1 ((rowScan_iff g r n).mpr h)
    · exact h2 ((colScan_iff g c n).mpr h)
    · exact h3 ((boxScan_iff g r c n).mpr h)

theorem is_valid_true_iff (g : Grid) (r c : Fin 9) (n : Nat) :
    is_valid g r c n = true ↔ ¬ appears g r c n := by
  rw [← is_valid_false_iff g r c n]
  cases h : is_valid g r c n <;> simp

theorem mem_candidates (g : Grid) (r c : Fin 9) (n : Nat) :
    n ∈ candidates g r c ↔ 1 ≤ n ∧ n ≤ 9 ∧ is_valid g r c n = true := by
  unfold candidates
  simp only [List.mem_filter, List.mem_range'_1]
  constructor
  · rintro ⟨⟨h1, h2⟩, h3⟩
    exact ⟨h1, by omega, h3⟩
  · rintro ⟨h1, h2, h3⟩
    exact ⟨⟨h1, by omega⟩, h3⟩

theorem sameUnit_symm (p q : Fin 9 × Fin 9) (h : sameUnit p q) : sameUnit q p := by
  rcases h with h | h | ⟨h1, h2⟩
  · exact Or.inl h.symm
  · exact Or.inr (Or.inl h.symm)
  · exact Or.inr (Or.inr ⟨h1.symm, h2.symm⟩)

theorem appears_iff_unit (g : Grid) (r c : Fin 9) (n : Nat) :
    appears g r c n ↔ ∃ q : Fin 9 × Fin 9, sameUnit (r, c) q ∧ g q.1 q.2 = n := by
  constructor
  · rintro (⟨x, hx⟩ | ⟨x, hx⟩ | ⟨i, j, hi, hj, hij⟩)
    · exact ⟨(r, x), Or.inl rfl, hx⟩
    · exact ⟨(x, c), Or.inr (Or.inl rfl), hx⟩
    · exact ⟨(i, j), Or.inr (Or.inr ⟨hi.symm, hj.symm⟩), hij⟩
  · rintro ⟨q, hq | hq | ⟨hq1, hq2⟩, hval⟩
    · have hq' : r = q.1 := hq
      exact Or.inl ⟨q.2, by rw [hq']; exact hval⟩
    · have hq' : c = q.2 := hq
      exact Or.inr (Or.inl ⟨q.1, by rw [hq']; exact hval⟩)
    · have hq1' : q.1.val / 3 = r.val / 3 := (show r.val / 3 = q.1.val / 3 from hq1).symm
      have hq2' : q.2.val / 3 = c.val / 3 := (show c.val / 3 = q.2.val / 3 from hq2).symm
      exact Or.inr (Or.inr ⟨q.1, q.2, hq1', hq2', hval⟩)

theorem consistent_place (g : Grid) (r c : Fin 9) (n : Nat)
    (hg : Consistent g) (h0 : g r c = 0) (hv : is_valid g r c n = true) :
    Consistent (setCell g r c n) := by
  have hnap : ¬ appears g r c n := (is_valid_true_iff g r c n).mp hv
  intro p q hne hunit hp0
  by_cases hp : p = (r, c)
  · by_cases hq : q = (r, c)
    · exact absurd (hp.trans hq.symm) hne
    · subst hp
      have hqo : setCell g r c n q.1 q.2 = g q.1 q.2 :=
        setCell_other g r c n q.1 q.2 (fun ⟨ha, hb⟩ => hq (pair_eq q r c ha hb))
      rw [hqo]
      have hps : setCell g r c n (r, c).1 (r, c).2 = n := setCell_same g r c n
      rw [hps]
      intro heq
      exact hnap ((appears_iff_unit g r c n).mpr ⟨q, hunit, heq.symm⟩)
  · by_cases hq : q = (r, c)
    · subst hq
      have hpo : setCell g r c n p.1 p.2 = g p.1 p.2 :=
        setCell_other g r c n p.1 p.2 (fun ⟨ha, hb⟩ => hp (pair_eq p r c ha hb))
      rw [hpo]
      have hqs : setCell g r c n (r, c).1 (r, c).2 = n := setCell_same g r c n
      rw [hqs]
      intro heq
      exact hnap ((appears_iff_unit g r c n).mpr ⟨p, sameUnit_symm p (r, c) hunit, heq⟩)
    · have hpo : setCell g r c n p.1 p.2 = g p.1 p.2 :=
        setCell_other g r c n p.1 p.2 (fun ⟨ha, hb⟩ => hp (pair_eq p r c ha hb))
      have hqo : setCell g r c n q.1 q.2 = g q.1 q.2 :=
        setCell_other g r c n q.1 q.2 (fun ⟨ha, hb⟩ => hq (pair_eq q r c ha hb))
      rw [hpo, hqo]
      rw [hpo] at hp0
      exact hg p q hne hunit hp0

theorem inRange_place (g : Grid) (r c : Fin 9) (n : Nat)
    (hg : InRange g) (hn : n ≤ 9) : InRange (setCell g r c n) := by
  intro i j
  by_cases h : i = r ∧ j = c
  · simp [setCell, h, hn]
  · rw [setCell_other g r c n i j h]
    exact hg i j

theorem extends_rfl (g : Grid) : Extends g g := fun _ _ _ => rfl

theorem extends_trans (g g' g'' : Grid) (h1 : Extends g g') (h2 : Extends g' g'') :
    Extends g g'' := by
  intro i j hij
  have e1 := h1 i j hij
  have e2 := h2 i j (by rw [e1]; exact hij)
  rw [e2, e1]

theorem extends_setCell (g : Grid) (r c : Fin 9) (n : Nat) (h0 : g r c = 0) :
    Extends g (setCell g r c n) := by
  intro i j hij
  apply setCell_other
  rintro ⟨h1, h2⟩
  subst h1; subst h2
  exact hij h0

theorem appears_mono (g g' : Grid) (hext : Extends g g') (r c : Fin 9) (n : Nat)
    (hn : 1 ≤ n) (h : appears g r c n) : appears g' r c n := by
  rcases h with ⟨x, hx⟩ | ⟨x, hx⟩ | ⟨i, j, hi, hj, hij⟩
  · exact Or.inl ⟨x, by rw [hext r x (by omega)]; exact hx⟩
  · exact Or.inr (Or.inl ⟨x, by rw [hext x c (by omega)]; exact hx⟩)
  · exact Or.inr (Or.inr ⟨i, j, hi, hj, by rw [hext i j (by omega)]; exact hij⟩)

theorem is_valid_mono (g g' : Grid) (hext : Extends g g') (r c : Fin 9) (n : Nat)
    (hn : 1 ≤ n) (hv : is_valid g' r c n = true) : is_valid g r c n = true := by
  rw [is_valid_true_iff] at hv ⊢
  intro hap
  exact hv (appears_mono g g' hext r c n hn hap)

theorem candidates_subset (g g' : Grid) (hext : Extends g g') (r c : Fin 9) :
    ∀ n ∈ candidates g' r c, n ∈ candidates g r c := by
  intro n hn
  rw [mem_candidates] at hn ⊢
  exact ⟨hn.1, hn.2.1, is_valid_mono g g' hext r c n hn.1 hn.2.2⟩

theorem emptyCount_le (g : Grid) : emptyCount g ≤ 81 := by
  unfold emptyCount
  have h := Finset.card_filter_le (Finset.univ : Finset (Fin 9 × Fin 9))
    (fun p => g p.1 p.2 = 0)
  simpa using h

theorem emptyCount_setCell_lt (g : Grid) (r c : Fin 9) (n : Nat)
    (h0 : g r c = 0) (hn : n ≠ 0) : emptyCount (setCell g r c n) < emptyCount g := by
  unfold emptyCount
  apply Finset.card_lt_card
  rw [Finset.ssubset_iff_of_subset]
  · refine ⟨(r, c), ?_, ?_⟩
    · simp [Finset.mem_filter, h0]
    · simp [Finset.mem_filter, setCell, hn]
  · intro p hp
    simp only [Finset.mem_filter, Finset.mem_univ, true_and] at hp ⊢
    by_cases hpc : p.1 = r ∧ p.2 = c
    · rw [setCell, if_pos hpc] at hp
      exact absurd hp hn
    · rw [setCell_other g r c n p.1 p.2 hpc] at hp
      exact hp

theorem find_go_nil (g : Grid) (best : Option (Fin 9 × Fin 9 × List Nat)) :
    find_go g [] best = best := rfl

theorem find_go_cons_filled (g : Grid) (p : Fin 9 × Fin 9) (rest : List (Fin 9 × Fin 9))
    (best : Option (Fin 9 × Fin 9 × List Nat)) (h0 : ¬ g p.1 p.2 = 0) :
    find_go g (p :: rest) best = find_go g rest best := by
  rw [find_go.eq_def]
  simp only [if_neg h0]

theorem find_go_cons_deadcell (g : Grid) (p : Fin 9 × Fin 9) (rest : List (Fin 9 × Fin 9))
    (best : Option (Fin 9 × Fin 9 × List Nat)) (h0 : g p.1 p.2 = 0)
    (hc : candidates g p.1 p.2 = []) :
    find_go g (p :: rest) best = some (p.1, p.2, []) := by
  rw [find_go.eq_def]
  simp only [if_pos h0, if_pos hc]

theorem find_go_cons_empty_none (g : Grid) (p : Fin 9 × Fin 9) (rest : List (Fin 9 × Fin 9))
    (h0 : g p.1 p.2 = 0) (hc : ¬ candidates g p.1 p.2 = []) :
    find_go g (p :: rest) none =
      if (candidates g p.1 p.2).length = 1 then some (p.1, p.2, candidates g p.1 p.2)
      else find_go g rest (some (p.1, p.2, candidates g p.1 p.2)) := by
  rw [find_go.eq_def]
  simp only [if_pos h0, if_neg hc]

theorem find_go_cons_empty_some (g : Grid) (p : Fin 9 × Fin 9) (rest : List (Fin 9 × Fin 9))
    (h0 : g p.1 p.2 = 0) (hc : ¬ candidates g p.1 p.2 = []) (b : Fin 9 × Fin 9 × List Nat) :
    find_go g (p :: rest) (some b) =
      if (candidates g p.1 p.2).length < b.2.2.length then
        (if (candidates g p.1 p.2).length = 1 then some (p.1, p.2, candidates g p.1 p.2)
         else find_go g rest (some (p.1, p.2, candidates g p.1 p.2)))
      else find_go g rest (some b) := by
  rw [find_go.eq_def]
  simp only [if_pos h0, if_neg hc]

theorem scan_full_nil (g : Grid) (best : Option (Fin 9 × Fin 9 × List Nat)) :
    scan_full g [] best = best := rfl

theorem scan_full_cons_filled (g : Grid) (p : Fin 9 × Fin 9) (rest : List (Fin 9 × Fin 9))
    (best : Option (Fin 9 × Fin 9 × List Nat)) (h0 : ¬ g p.1 p.2 = 0) :
    scan_full g (p :: rest) best = scan_full g rest best := by
  rw [scan_full.eq_def]
  simp only [if_neg h0]

theorem scan_full_cons_none (g : Grid) (p : Fin 9 × Fin 9) (rest : List (Fin 9 × Fin 9))
    (h0 : g p.1 p.2 = 0) :
    scan_full g (p :: rest) none =
      scan_full g rest (some (p.1, p.2, candidates g p.1 p.2)) := by
  rw [scan_full.eq_def]
  simp only [if_pos h0]

theorem scan_full_cons_some (g : Grid) (p : Fin 9 × Fin 9) (rest : List (Fin 9 × Fin 9))
    (h0 : g p.1 p.2 = 0) (b : Fin 9 × Fin 9 × List Nat) :
    scan_full g (p :: rest) (some b) =
      if (candidates g p.1 p.2).length < b.2.2.length then
        scan_full g rest (some (p.1, p.2, candidates g p.1 p.2))
      else scan_full g rest (some b) := by
  rw [scan_full.eq_def]
  simp only [if_pos h0]

theorem find_go_none (g : Grid) (cells : List (Fin 9 × Fin 9)) :
    ∀ best, find_go g cells best = none → best = none ∧ ∀ p ∈ cells, g p.1 p.2 ≠ 0 := by
  induction cells with
  | nil =>
    intro best h
    rw [find_go_nil] at h
    exact ⟨h, fun p hp => absurd hp (List.not_mem_nil p)⟩
  | cons p rest ih =>
    intro best h
    by_cases h0 : g p.1 p.2 = 0
    · by_cases hc : candidates g p.1 p.2 = []
      · rw [find_go_cons_deadcell g p rest best h0 hc] at h
        exact absurd h (by simp)
      · cases best with
        | none =>
          rw [find_go_cons_empty_none g p rest h0 hc] at h
          by_cases hl : (candidates g p.1 p.2).length = 1
          · rw [if_pos hl] at h
            exact absurd h (by simp)
          · rw [if_neg hl] at h
            exact absurd (ih _ h).1 (by simp)
        | some b =>
          rw [find_go_cons_empty_some g p rest h0 hc b] at h
          by_cases hlt : (candidates g p.1 p.2).length < b.2.2.length
          · rw [if_pos hlt] at h
            by_cases hl : (candidates g p.1 p.2).length = 1
            · rw [if_pos hl] at h
              exact absurd h (by simp)
            · rw [if_neg hl] at h
              exact absurd (ih _ h).1 (by simp)
          · rw [if_neg hlt] at h
            exact absurd (ih _ h).1 (by simp)
    · rw [find_go_cons_filled g p rest best h0] at h
      obtain ⟨hbest, hrest⟩ := ih best h
      refine ⟨hbest, ?_⟩
      intro q hq
      rcases List.mem_cons.mp hq with hq | hq
      · rw [hq]; exact h0
      · exact hrest q hq

theorem find_go_filled (g : Grid) (cells : List (Fin 9 × Fin 9)) :
    ∀ best, (∀ p ∈ cells, g p.1 p.2 ≠ 0) → find_go g cells best = best := by
  induction cells with
  | nil => intro best _; exact find_go_nil g best
  | cons p rest ih =>
    intro best hall
    rw [find_go_cons_filled g p rest best (hall p (List.mem_cons_self p rest))]
    exact ih best (fun q hq => hall q (List.mem_cons_of_mem p hq))

theorem find_go_some (g : Grid) (cells : List (Fin 9 × Fin 9)) :
    ∀ best, (∀ r c cand, best = some (r, c, cand) → g r c = 0 ∧ cand = candidates g r c) →
      ∀ r c cand, find_go g cells best = some (r, c, cand) →
        g r c = 0 ∧ cand = candidates g r c := by
  induction cells with
  | nil =>
    intro best hb r c cand h
    rw [find_go_nil] at h
    exact hb r c cand h
  | cons p rest ih =>
    intro best hb r c cand h
    by_cases h0 : g p.1 p.2 = 0
    · by_cases hc : candidates g p.1 p.2 = []
      · rw [find_go_cons_deadcell g p rest best h0 hc] at h
        simp only [Option.some.injEq, Prod.mk.injEq] at h
        obtain ⟨h1, h2, h3⟩ := h
        subst h1; subst h2; subst h3
        exact ⟨h0, hc.symm⟩
      · have hbnew : ∀ r' c' cand',
            some (p.1, p.2, candidates g p.1 p.2) = some (r', c', cand') →
              g r' c' = 0 ∧ cand' = candidates g r' c' := by
          intro r' c' cand' h'
          simp only [Option.some.injEq, Prod.mk.injEq] at h'
          obtain ⟨h1, h2, h3⟩ := h'
          subst h1; subst h2; subst h3
          exact ⟨h0, rfl⟩
        cases best with
        | none =>
          rw [find_go_cons_empty_none g p rest h0 hc] at h
          by_cases hl : (candidates g p.1 p.2).length = 1
          · rw [if_pos hl] at h
            exact hbnew r c cand h
          · rw [if_neg hl] at h
            exact ih _ hbnew r c cand h
        | some b =>
          rw [find_go_cons_empty_some g p rest h0 hc b] at h
          by_cases hlt : (candidates g p.1 p.2).length < b.2.2.length
          · rw [if_pos hlt] at h
            by_cases hl : (candidates g p.1 p.2).length = 1
            · rw [if_pos hl] at h
              exact hbnew r c cand h
            · rw [if_neg hl] at h
              exact ih _ hbnew r c cand h
          · rw [if_neg hlt] at h
            exact ih _ hb r c cand h
    · rw [find_go_cons_filled g p rest best h0] at h
      exact ih best hb r c cand h

theorem find_none_iff (g : Grid) :
    find_empty_with_fewest_candidates g = none ↔ ∀ i j : Fin 9, g i j ≠ 0 := by
  unfold find_empty_with_fewest_candidates
  constructor
  · intro h i j
    exact (find_go_none g allCells none h).2 (i, j) (mem_allCells (i, j))
  · intro h
    exact find_go_filled g allCells none (fun p _ => h p.1 p.2)

theorem find_some (g : Grid) (r c : Fin 9) (cand : List Nat)
    (h : find_empty_with_fewest_candidates g = some (r, c, cand)) :
    g r c = 0 ∧ cand = candidates g r c := by
  unfold find_empty_with_fewest_candidates at h
  exact find_go_some g allCells none
    (fun r' c' cand' h' => absurd h' (by simp)) r c cand h

theorem find_go_dead (g : Grid) (cells : List (Fin 9 × Fin 9)) :
    ∀ best, (∃ p ∈ cells, g p.1 p.2 = 0 ∧ candidates g p.1 p.2 = []) →
      ∃ r c cand, find_go g cells best = some (r, c, cand) ∧ cand.length ≤ 1 := by
  induction cells with
  | nil =>
    intro best h
    obtain ⟨p, hp, _⟩ := h
    exact absurd hp (List.not_mem_nil p)
  | cons p rest ih =>
    intro best hdead
    by_cases h0 : g p.1 p.2 = 0
    · by_cases hc : candidates g p.1 p.2 = []
      · exact ⟨p.1, p.2, [], find_go_cons_deadcell g p rest best h0 hc, by simp⟩
      · have hrest : ∃ q ∈ rest, g q.1 q.2 = 0 ∧ candidates g q.1 q.2 = [] := by
          obtain ⟨q, hq, hq0, hqc⟩ := hdead
          rcases List.mem_cons.mp hq with hq | hq
          · exact absurd (hq ▸ hqc) hc
          · exact ⟨q, hq, hq0, hqc⟩
        have hlen1 : 1 ≤ (candidates g p.1 p.2).length := by
          rcases Nat.eq_zero_or_pos (candidates g p.1 p.2).length with h' | h'
          · exact absurd (List.length_eq_zero.mp h') hc
          · exact h'
        cases best with
        | none =>
          rw [find_go_cons_empty_none g p rest h0 hc]
          by_cases hl : (candidates g p.1 p.2).length = 1
          · rw [if_pos hl]
            exact ⟨p.1, p.2, candidates g p.1 p.2, rfl, by omega⟩
          · rw [if_neg hl]
            exact ih _ hrest
        | some b =>
          rw [find_go_cons_empty_some g p rest h0 hc b]
          by_cases hlt : (candidates g p.1 p.2).length < b.2.2.length
          · rw [if_pos hlt]
            by_cases hl : (candidates g p.1 p.2).length = 1
            · rw [if_pos hl]
              exact ⟨p.1, p.2, candidates g p.1 p.2, rfl, by omega⟩
            · rw [if_neg hl]
              exact ih _ hrest
          · rw [if_neg hlt]
            exact ih _ hrest
    · rw [find_go_cons_filled g p rest best h0]
      apply ih
      obtain ⟨q, hq, hq0, hqc⟩ := hdead
      rcases List.mem_cons.mp hq with hq | hq
      · exact absurd (hq ▸ hq0) h0
      · exact ⟨q, hq, hq0, hqc⟩

theorem scan_full_dead (g : Grid) (cells : List (Fin 9 × Fin 9)) :
    ∀ best, ((∃ p ∈ cells, g p.1 p.2 = 0 ∧ candidates g p.1 p.2 = []) ∨
        (∃ r c, best = some (r, c, ([] : List Nat)))) →
      ∃ r c, scan_full g cells best = some (r, c, ([] : List Nat)) := by
  induction cells with
  | nil =>
    intro best h
    rcases h with ⟨p, hp, _⟩ | ⟨r, c, hb⟩
    · exact absurd hp (List.not_mem_nil p)
    · exact ⟨r, c, by rw [scan_full_nil, hb]⟩
  | cons p rest ih =>
    intro best h
    by_cases h0 : g p.1 p.2 = 0
    · cases best with
      | none =>
        rw [scan_full_cons_none g p rest h0]
        rcases h with ⟨q, hq, hq0, hqc⟩ | ⟨r, c, hb⟩
        · rcases List.mem_cons.mp hq with hqp | hqr
          · have hc' : candidates g p.1 p.2 = [] := hqp ▸ hqc
            apply ih
            right
            exact ⟨p.1, p.2, by rw [hc']⟩
          · exact ih _ (Or.inl ⟨q, hqr, hq0, hqc⟩)
        · exact absurd hb (by simp)
      | some b =>
        rw [scan_full_cons_some g p rest h0 b]
        rcases h with ⟨q, hq, hq0, hqc⟩ | ⟨r, c, hb⟩
        · rcases List.mem_cons.mp hq with hqp | hqr
          · have hc' : candidates g p.1 p.2 = [] := hqp ▸ hqc
            by_cases hlt : (candidates g p.1 p.2).length < b.2.2.length
            · rw [if_pos hlt]
              apply ih
              right
              exact ⟨p.1, p.2, by rw [hc']⟩
            · rw [if_neg hlt]
              have hb0 : b.2.2.length = 0 := by
                rw [hc'] at hlt
                simp only [List.length_nil] at hlt
                omega
              have hbnil : b.2.2 = [] := List.length_eq_zero.mp hb0
              apply ih
              right
              exact ⟨b.1, b.2.1, by rw [← hbnil]⟩
          · by_cases hlt : (candidates g p.1 p.2).length < b.2.2.length
            · rw [if_pos hlt]
              exact ih _ (Or.inl ⟨q, hqr, hq0, hqc⟩)
            · rw [if_neg hlt]
              exact ih _ (Or.inl ⟨q, hqr, hq0, hqc⟩)
        · have hbval : b = (r, c, ([] : List Nat)) := by
            injection hb
          subst hbval
          have hnlt : ¬ (candidates g p.1 p.2).length < (r, c, ([] : List Nat)).2.2.length := by
            simp
          rw [if_neg hnlt]
          exact ih _ (Or.inr ⟨r, c, rfl⟩)
    · rw [scan_full_cons_filled g p rest best h0]
      apply ih
      rcases h with ⟨q, hq, hq0, hqc⟩ | hb
      · rcases List.mem_cons.mp hq with hqp | hqr
        · exact absurd (hqp ▸ hq0) h0
        · exact Or.inl ⟨q, hqr, hq0, hqc⟩
      · exact Or.inr hb

theorem scan_full_frozen (g : Grid) (cells : List (Fin 9 × Fin 9)) :
    ∀ b : Fin 9 × Fin 9 × List Nat,
      (∀ p ∈ cells, g p.1 p.2 = 0 → candidates g p.1 p.2 ≠ []) →
      b.2.2.length ≤ 1 → scan_full g cells (some b) = some b := by
  induction cells with
  | nil => intro b _ _; exact scan_full_nil g (some b)
  | cons p rest ih =>
    intro b hnd hb
    by_cases h0 : g p.1 p.2 = 0
    · rw [scan_full_cons_some g p rest h0 b]
      have hc : candidates g p.1 p.2 ≠ [] := hnd p (List.mem_cons_self p rest) h0
      have hlen : (candidates g p.1 p.2).length ≠ 0 := by
        intro h'
        exact hc (List.length_eq_zero.mp h')
      rw [if_neg (by omega)]
      exact ih b (fun q hq => hnd q (List.mem_cons_of_mem p hq)) hb
    · rw [scan_full_cons_filled g p rest (some b) h0]
      exact ih b (fun q hq => hnd q (List.mem_cons_of_mem p hq)) hb

theorem scan_agree (g : Grid) (cells : List (Fin 9 × Fin 9)) :
    ∀ best, (∀ p ∈ cells, g p.1 p.2 = 0 → candidates g p.1 p.2 ≠ []) →
      (∀ b, best = some b → 2 ≤ b.2.2.length) →
      find_go g cells best = scan_full g cells best := by
  induction cells with
  | nil => intro best _ _; rw [find_go_nil, scan_full_nil]
  | cons p rest ih =>
    intro best hnd hbb
    have hndr : ∀ q ∈ rest, g q.1 q.2 = 0 → candidates g q.1 q.2 ≠ [] :=
      fun q hq => hnd q (List.mem_cons_of_mem p hq)
    by_cases h0 : g p.1 p.2 = 0
    · have hc : candidates g p.1 p.2 ≠ [] := hnd p (List.mem_cons_self p rest) h0
      have hlen1 : 1 ≤ (candidates g p.1 p.2).length := by
        rcases Nat.eq_zero_or_pos (candidates g p.1 p.2).length with h' | h'
        · exact absurd (List.length_eq_zero.mp h') hc
        · exact h'
      cases best with
      | none =>
        rw [find_go_cons_empty_none g p rest h0 hc, scan_full_cons_none g p rest h0]
        by_cases hl : (candidates g p.1 p.2).length = 1
        · rw [if_pos hl]
          exact (scan_full_frozen g rest (p.1, p.2, candidates g p.1 p.2) hndr
            (by show (candidates g p.1 p.2).length ≤ 1; omega)).symm
        · rw [if_neg hl]
          refine ih _ hndr ?_
          intro b' hb'
          have hbeq : (p.1, p.2, candidates g p.1 p.2) = b' := by injection hb'
          subst hbeq
          show 2 ≤ (candidates g p.1 p.2).length
          omega
      | some b =>
        have hb2 : 2 ≤ b.2.2.length := hbb b rfl
        rw [find_go_cons_empty_some g p rest h0 hc b, scan_full_cons_some g p rest h0 b]
        by_cases hlt : (candidates g p.1 p.2).length < b.2.2.length
        · rw [if_pos hlt, if_pos hlt]
          by_cases hl : (candidates g p.1 p.2).length = 1
          · rw [if_pos hl]
            exact (scan_full_frozen g rest (p.1, p.2, candidates g p.1 p.2) hndr
              (by show (candidates g p.1 p.2).length ≤ 1; omega)).symm
          · rw [if_neg hl]
            refine ih _ hndr ?_
            intro b' hb'
            have hbeq : (p.1, p.2, candidates g p.1 p.2) = b' := by injection hb'
            subst hbeq
            show 2 ≤ (candidates g p.1 p.2).length
            omega
        · rw [if_neg hlt, if_neg hlt]
          refine ih _ hndr ?_
          intro b' hb'
          have hbeq : b = b' := by injection hb'
          subst hbeq
          exact hb2
    · rw [find_go_cons_filled g p rest best h0, scan_full_cons_filled g p rest best h0]
      exact ih best hndr hbb

theorem select_agree (g : Grid)
    (hnd : ∀ r c : Fin 9, g r c = 0 → candidates g r c ≠ []) :
    find_empty_with_fewest_candidates g = select_full_scan g := by
  unfold find_empty_with_fewest_candidates select_full_scan
  exact scan_agree g allCells none (fun p _ h0 => hnd p.1 p.2 h0)
    (fun b hb => absurd hb (by simp))

theorem tryLoop_nil (s : Grid → Bool × Grid) (r c : Fin 9) (g : Grid) :
    tryLoop s r c g [] = (false, g) := rfl

theorem tryLoop_cons (s : Grid → Bool × Grid) (r c : Fin 9) (g : Grid) (n : Nat)
    (rest : List Nat) :
    tryLoop s r c g (n :: rest) =
      if (s (setCell g r c n)).1 then s (setCell g r c n)
      else tryLoop s r c (setCell (s (setCell g r c n)).2 r c 0) rest := rfl

theorem solveWith_zero (sel : Grid → Option (Fin 9 × Fin 9 × List Nat)) (g : Grid) :
    solveWith sel 0 g = (false, g) := rfl

theorem solveWith_succ_none (sel : Grid → Option (Fin 9 × Fin 9 × List Nat))
    (fuel : Nat) (g : Grid) (h : sel g = none) :
    solveWith sel (fuel + 1) g = (true, g) := by
  show (match sel g with
    | none => (true, g)
    | some (r, c, cand) => tryLoop (solveWith sel fuel) r c g cand) = (true, g)
  rw [h]

theorem solveWith_succ_some (sel : Grid → Option (Fin 9 × Fin 9 × List Nat))
    (fuel : Nat) (g : Grid) (r c : Fin 9) (cand : List Nat)
    (h : sel g = some (r, c, cand)) :
    solveWith sel (fuel + 1) g = tryLoop (solveWith sel fuel) r c g cand := by
  show (match sel g with
    | none => (true, g)
    | some (r, c, cand) => tryLoop (solveWith sel fuel) r c g cand) =
    tryLoop (solveWith sel fuel) r c g cand
  rw [h]

theorem tryLoop_restore (s : Grid → Bool × Grid)
    (hs : ∀ g', (s g').1 = false → (s g').2 = g') (r c : Fin 9) :
    ∀ (cand : List Nat) (g : Grid), g r c = 0 →
      (tryLoop s r c g cand).1 = false → (tryLoop s r c g cand).2 = g := by
  intro cand
  induction cand with
  | nil => intro g _ _; rw [tryLoop_nil]
  | cons n rest ih =>
    intro g h0 hf
    rw [tryLoop_cons] at hf ⊢
    by_cases hres : (s (setCell g r c n)).1 = true
    · rw [if_pos hres] at hf
      rw [hres] at hf
      exact absurd hf (by simp)
    · have hres' : (s (setCell g r c n)).1 = false := by
        revert hres
        cases (s (setCell g r c n)).1 <;> simp
      rw [if_neg hres] at hf ⊢
      rw [hs _ hres', setCell_setCell, setCell_zero g r c h0] at hf ⊢
      exact ih g h0 hf

theorem solveWith_restore (sel : Grid → Option (Fin 9 × Fin 9 × List Nat))
    (hsel : ∀ g r c cand, sel g = some (r, c, cand) → g r c = 0) :
    ∀ (fuel : Nat) (g : Grid),
      (solveWith sel fuel g).1 = false → (solveWith sel fuel g).2 = g := by
  intro fuel
  induction fuel with
  | zero => intro g _; rw [solveWith_zero]
  | succ f ih =>
    intro g hf
    cases hselg : sel g with
    | none =>
      rw [solveWith_succ_none sel f g hselg] at hf
      exact absurd hf (by simp)
    | some t =>
      obtain ⟨r, c, cand⟩ := t
      rw [solveWith_succ_some sel f g r c cand hselg] at hf ⊢
      exact tryLoop_restore (solveWith sel f) ih r c cand g (hsel g r c cand hselg) hf

theorem tryLoop_extends (s : Grid → Bool × Grid)
    (hs_ext : ∀ g', (s g').1 = true → Extends g' (s g').2)
    (hs_res : ∀ g', (s g').1 = false → (s g').2 = g') (r c : Fin 9) :
    ∀ (cand : List Nat) (g : Grid), g r c = 0 → (tryLoop s r c g cand).1 = true →
      Extends g (tryLoop s r c g cand).2 := by
  intro cand
  induction cand with
  | nil =>
    intro g _ ht
    rw [tryLoop_nil] at ht
    exact absurd ht (by simp)
  | cons n rest ih =>
    intro g h0 ht
    rw [tryLoop_cons] at ht ⊢
    by_cases hres : (s (setCell g r c n)).1 = true
    · rw [if_pos hres] at ht ⊢
      exact extends_trans g (setCell g r c n) _ (extends_setCell g r c n h0) (hs_ext _ hres)
    · have hres' : (s (setCell g r c n)).1 = false := by
        revert hres
        cases (s (setCell g r c n)).1 <;> simp
      rw [if_neg hres] at ht ⊢
      rw [hs_res _ hres', setCell_setCell, setCell_zero g r c h0] at ht ⊢
      exact ih g h0 ht

theorem solveWith_extends (sel : Grid → Option (Fin 9 × Fin 9 × List Nat))
    (hsel : ∀ g r c cand, sel g = some (r, c, cand) → g r c = 0) :
    ∀ (fuel : Nat) (g : Grid), (solveWith sel fuel g).1 = true →
      Extends g (solveWith sel fuel g).2 := by
  intro fuel
  induction fuel with
  | zero =>
    intro g ht
    rw [solveWith_zero] at ht
    exact absurd ht (by simp)
  | succ f ih =>
    intro g ht
    cases hselg : sel g with
    | none =>
      rw [solveWith_succ_none sel f g hselg] at ht ⊢
      exact extends_rfl g
    | some t =>
      obtain ⟨r, c, cand⟩ := t
      rw [solveWith_succ_some sel f g r c cand hselg] at ht ⊢
      exact tryLoop_extends (solveWith sel f) ih (solveWith_restore sel hsel f)
        r c cand g (hsel g r c cand hselg) ht

theorem tryLoop_full (s : Grid → Bool × Grid)
    (hs : ∀ g', (s g').1 = true → ∀ i j : Fin 9, (s g').2 i j ≠ 0) (r c : Fin 9) :
    ∀ (cand : List Nat) (g : Grid), (tryLoop s r c g cand).1 = true →
      ∀ i j : Fin 9, (tryLoop s r c g cand).2 i j ≠ 0 := by
  intro cand
  induction cand with
  | nil =>
    intro g ht
    rw [tryLoop_nil] at ht
    exact absurd ht (by simp)
  | cons n rest ih =>
    intro g ht
    rw [tryLoop_cons] at ht ⊢
    by_cases hres : (s (setCell g r c n)).1 = true
    · rw [if_pos hres] at ht ⊢
      exact hs _ hres
    · rw [if_neg hres] at ht ⊢
      exact ih _ ht

theorem solveWith_full (sel : Grid → Option (Fin 9 × Fin 9 × List Nat))
    (hsel_none : ∀ g, sel g = none → ∀ i j : Fin 9, g i j ≠ 0) :
    ∀ (fuel : Nat) (g : Grid), (solveWith sel fuel g).1 = true →
      ∀ i j : Fin 9, (solveWith sel fuel g).2 i j ≠ 0 := by
  intro fuel
  induction fuel with
  | zero =>
    intro g ht
    rw [solveWith_zero] at ht
    exact absurd ht (by simp)
  | succ f ih =>
    intro g ht
    cases hselg : sel g with
    | none =>
      rw [solveWith_succ_none sel f g hselg] at ht ⊢
      exact hsel_none g hselg
    | some t =>
      obtain ⟨r, c, cand⟩ := t
      rw [solveWith_succ_some sel f g r c cand hselg] at ht ⊢
      exact tryLoop_full (solveWith sel f) ih r c cand g ht

theorem tryLoop_inv (s : Grid → Bool × Grid)
    (hs : ∀ g', Consistent g' ∧ InRange g' → (s g').1 = true →
      Consistent (s g').2 ∧ InRange (s g').2)
    (hs_res : ∀ g', (s g').1 = false → (s g').2 = g') (r c : Fin 9) :
    ∀ (cand : List Nat) (g : Grid), Consistent g ∧ InRange g → g r c = 0 →
      (∀ n ∈ cand, n ∈ candidates g r c) →
      (tryLoop s r c g cand).1 = true →
      Consistent (tryLoop s r c g cand).2 ∧ InRange (tryLoop s r c g cand).2 := by
  intro cand
  induction cand with
  | nil =>
    intro g _ _ _ ht
    rw [tryLoop_nil] at ht
    exact absurd ht (by simp)
  | cons n rest ih =>
    intro g hinv h0 hcand ht
    have hn : n ∈ candidates g r c := hcand n (List.mem_cons_self n rest)
    rw [mem_candidates] at hn
    have hinv1 : Consistent (setCell g r c n) ∧ InRange (setCell g r c n) :=
      ⟨consistent_place g r c n hinv.1 h0 hn.2.2, inRange_place g r c n hinv.2 hn.2.1⟩
    rw [tryLoop_cons] at ht ⊢
    by_cases hres : (s (setCell g r c n)).1 = true
    · rw [if_pos hres] at ht ⊢
      exact hs _ hinv1 hres
    · have hres' : (s (setCell g r c n)).1 = false := by
        revert hres
        cases (s (setCell g r c n)).1 <;> simp
      rw [if_neg hres] at ht ⊢
      rw [hs_res _ hres', setCell_setCell, setCell_zero g r c h0] at ht ⊢
      exact ih g hinv h0 (fun m hm => hcand m (List.mem_cons_of_mem n hm)) ht

theorem solveWith_inv (sel : Grid → Option (Fin 9 × Fin 9 × List Nat))
    (hsel : ∀ g r c cand, sel g = some (r, c, cand) →
      g r c = 0 ∧ cand = candidates g r c) :
    ∀ (fuel : Nat) (g : Grid), Consistent g ∧ InRange g →
      (solveWith sel fuel g).1 = true →
      Consistent (solveWith sel fuel g).2 ∧ InRange (solveWith sel fuel g).2 := by
  intro fuel
  induction fuel with
  | zero =>
    intro g _ ht
    rw [solveWith_zero] at ht
    exact absurd ht (by simp)
  | succ f ih =>
    intro g hinv ht
    cases hselg : sel g with
    | none =>
      rw [solveWith_succ_none sel f g hselg] at ht ⊢
      exact hinv
    | some t =>
      obtain ⟨r, c, cand⟩ := t
      obtain ⟨h0, hcand⟩ := hsel g r c cand hselg
      rw [solveWith_succ_some sel f g r c cand hselg] at ht ⊢
      exact tryLoop_inv (solveWith sel f) ih
        (solveWith_restore sel (fun g' r' c' cand' h' => (hsel g' r' c' cand' h').1) f)
        r c cand g hinv h0 (fun m hm => hcand ▸ hm) ht

theorem tryLoop_congr (s1 s2 : Grid → Bool × Grid) (r c : Fin 9)
    (hres1 : ∀ g', (s1 g').1 = false → (s1 g').2 = g') :
    ∀ (cand : List Nat) (g : Grid), g r c = 0 →
      (∀ n ∈ cand, s1 (setCell g r c n) = s2 (setCell g r c n)) →
      tryLoop s1 r c g cand = tryLoop s2 r c g cand := by
  intro cand
  induction cand with
  | nil => intro g _ _; rw [tryLoop_nil, tryLoop_nil]
  | cons n rest ih =>
    intro g h0 hagree
    have hag : s1 (setCell g r c n) = s2 (setCell g r c n) :=
      hagree n (List.mem_cons_self n rest)
    rw [tryLoop_cons, tryLoop_cons, ← hag]
    by_cases hres : (s1 (setCell g r c n)).1 = true
    · rw [if_pos hres, if_pos hres]
    · have hres' : (s1 (setCell g r c n)).1 = false := by
        revert hres
        cases (s1 (setCell g r c n)).1 <;> simp
      rw [if_neg hres, if_neg hres]
      rw [hres1 _ hres', setCell_setCell, setCell_zero g r c h0]
      exact ih g h0 (fun m hm => hagree m (List.mem_cons_of_mem n hm))

theorem solveWith_fuel_mono (sel : Grid → Option (Fin 9 × Fin 9 × List Nat))
    (hsel : ∀ g r c cand, sel g = some (r, c, cand) →
      g r c = 0 ∧ cand = candidates g r c) :
    ∀ (fuel fuel' : Nat) (g : Grid), emptyCount g < fuel → emptyCount g < fuel' →
      solveWith sel fuel g = solveWith sel fuel' g := by
  intro fuel
  induction fuel with
  | zero => intro fuel' g h _; exact absurd h (Nat.not_lt_zero _)
  | succ f ih =>
    intro fuel' g hf hf'
    cases fuel' with
    | zero => exact absurd hf' (Nat.not_lt_zero _)
    | succ f' =>
      cases hselg : sel g with
      | none =>
        rw [solveWith_succ_none sel f g hselg, solveWith_succ_none sel f' g hselg]
      | some t =>
        obtain ⟨r, c, cand⟩ := t
        obtain ⟨h0, hcand⟩ := hsel g r c cand hselg
        rw [solveWith_succ_some sel f g r c cand hselg,
            solveWith_succ_some sel f' g r c cand hselg]
        apply tryLoop_congr (solveWith sel f) (solveWith sel f') r c
          (solveWith_restore sel (fun g' r' c' cand' h' => (hsel g' r' c' cand' h').1) f)
          cand g h0
        intro n hn
        have hnc : n ∈ candidates g r c := hcand ▸ hn
        rw [mem_candidates] at hnc
        have hlt := emptyCount_setCell_lt g r c n h0 (by omega)
        exact ih f' (setCell g r c n) (by omega) (by omega)

theorem tryLoop_dead (s : Grid → Bool × Grid) (r c : Fin 9) (p : Fin 9 × Fin 9)
    (hpne : p ≠ (r, c))
    (hs : ∀ g', g' p.1 p.2 = 0 → candidates g' p.1 p.2 = [] → s g' = (false, g')) :
    ∀ (cand : List Nat) (g : Grid), g r c = 0 → g p.1 p.2 = 0 →
      candidates g p.1 p.2 = [] → tryLoop s r c g cand = (false, g) := by
  intro cand
  induction cand with
  | nil => intro g _ _ _; rw [tryLoop_nil]
  | cons n rest ih =>
    intro g h0 hp0 hpc
    rw [tryLoop_cons]
    have hg1p : setCell g r c n p.1 p.2 = g p.1 p.2 :=
      setCell_other g r c n p.1 p.2 (fun ⟨h1, h2⟩ => hpne (pair_eq p r c h1 h2))
    have hp0' : setCell g r c n p.1 p.2 = 0 := by rw [hg1p]; exact hp0
    have hsub := candidates_subset g (setCell g r c n) (extends_setCell g r c n h0) p.1 p.2
    have hpc' : candidates (setCell g r c n) p.1 p.2 = [] := by
      rcases h' : candidates (setCell g r c n) p.1 p.2 with _ | ⟨m, ms⟩
      · rfl
      · have hmem : m ∈ candidates g p.1 p.2 :=
          hsub m (by rw [h']; exact List.mem_cons_self m ms)
        rw [hpc] at hmem
        exact absurd hmem (List.not_mem_nil m)
    rw [hs _ hp0' hpc']
    rw [if_neg (by simp)]
    show tryLoop s r c (setCell (setCell g r c n) r c 0) rest = (false, g)
    rw [setCell_setCell, setCell_zero g r c h0]
    exact ih g h0 hp0 hpc

theorem solveGo_dead :
    ∀ (fuel : Nat) (g : Grid), DeadCase g →
      solveWith find_empty_with_fewest_candidates fuel g = (false, g) := by
  intro fuel
  induction fuel with
  | zero => intro g _; rw [solveWith_zero]
  | succ f ih =>
    intro g hdead
    obtain ⟨pr, pc, hp0, hpc⟩ := hdead
    obtain ⟨r, c, cand, hsel, _⟩ :=
      find_go_dead g allCells none ⟨(pr, pc), mem_allCells _, hp0, hpc⟩
    obtain ⟨h0, hcand⟩ := find_some g r c cand hsel
    rw [solveWith_succ_some find_empty_with_fewest_candidates f g r c cand hsel]
    by_cases hcnil : candidates g r c = []
    · rw [hcand, hcnil, tryLoop_nil]
    · have hne : (pr, pc) ≠ (r, c) := by
        intro heq
        simp only [Prod.mk.injEq] at heq
        obtain ⟨e1, e2⟩ := heq
        subst e1; subst e2
        exact hcnil hpc
      exact tryLoop_dead (solveWith find_empty_with_fewest_candidates f) r c (pr, pc) hne
        (fun g' h1 h2 => ih g' ⟨pr, pc, h1, h2⟩) cand g h0 hp0 hpc

theorem solve_full_scan_dead :
    ∀ (fuel : Nat) (g : Grid), DeadCase g →
      solveWith select_full_scan fuel g = (false, g) := by
  intro fuel g hdead
  cases fuel with
  | zero => rw [solveWith_zero]
  | succ f =>
    obtain ⟨pr, pc, hp0, hpc⟩ := hdead
    obtain ⟨r, c, hsel⟩ :=
      scan_full_dead g allCells none (Or.inl ⟨(pr, pc), mem_allCells _, hp0, hpc⟩)
    have hsel' : select_full_scan g = some (r, c, ([] : List Nat)) := hsel
    rw [solveWith_succ_some select_full_scan f g r c [] hsel']
    rw [tryLoop_nil]

theorem solveWith_eq_full_scan :
    ∀ (fuel : Nat) (g : Grid),
      solveWith find_empty_with_fewest_candidates fuel g =
        solveWith select_full_scan fuel g := by
  intro fuel
  induction fuel with
  | zero => intro g; rw [solveWith_zero, solveWith_zero]
  | succ f ih =>
    intro g
    by_cases hdead : DeadCase g
    · rw [solveGo_dead (f + 1) g hdead, solve_full_scan_dead (f + 1) g hdead]
    · have hnd : ∀ r c : Fin 9, g r c = 0 → candidates g r c ≠ [] := by
        intro r c h0 hc
        exact hdead ⟨r, c, h0, hc⟩
      have hseleq := select_agree g hnd
      cases hselg : find_empty_with_fewest_candidates g with
      | none =>
        rw [solveWith_succ_none find_empty_with_fewest_candidates f g hselg,
            solveWith_succ_none select_full_scan f g (hseleq.symm.trans hselg)]
      | some t =>
        obtain ⟨r, c, cand⟩ := t
        rw [solveWith_succ_some find_empty_with_fewest_candidates f g r c cand hselg,
            solveWith_succ_some select_full_scan f g r c cand (hseleq.symm.trans hselg)]
        rw [funext ih]

theorem unit_surj (G : Grid) (hcons : Consistent G) (hrange : InRange G)
    (hfull : ∀ i j : Fin 9, G i j ≠ 0) (f : Fin 9 → Fin 9 × Fin 9)
    (hinj : Function.Injective f)
    (hunit : ∀ a b : Fin 9, a ≠ b → sameUnit (f a) (f b)) (d : Nat)
    (hd1 : 1 ≤ d) (hd9 : d ≤ 9) : ∃ a : Fin 9, G (f a).1 (f a).2 = d := by
  have hF : ∀ a : Fin 9, G (f a).1 (f a).2 - 1 < 9 := by
    intro a
    have h1 := hrange (f a).1 (f a).2
    have h2 := hfull (f a).1 (f a).2
    omega
  have hFinj : Function.Injective
      (fun a : Fin 9 => (⟨G (f a).1 (f a).2 - 1, hF a⟩ : Fin 9)) := by
    intro a b hab
    by_contra hne
    have hfne : f a ≠ f b := fun h => hne (hinj h)
    have hvne := hcons (f a) (f b) hfne (hunit a b hne) (hfull (f a).1 (f a).2)
    have hv1 := hfull (f a).1 (f a).2
    have hv2 := hfull (f b).1 (f b).2
    have heq : G (f a).1 (f a).2 - 1 = G (f b).1 (f b).2 - 1 := congrArg Fin.val hab
    have : G (f a).1 (f a).2 = G (f b).1 (f b).2 := by omega
    exact hvne this
  have hFsurj := Finite.injective_iff_surjective.mp hFinj
  obtain ⟨a, ha⟩ := hFsurj ⟨d - 1, by omega⟩
  refine ⟨a, ?_⟩
  have hval : G (f a).1 (f a).2 - 1 = d - 1 := congrArg Fin.val ha
  have h2 := hfull (f a).1 (f a).2
  omega

theorem row_exactly_once (G : Grid) (hcons : Consistent G) (hrange : InRange G)
    (hfull : ∀ i j : Fin 9, G i j ≠ 0) (r : Fin 9) (d : Nat)
    (hd1 : 1 ≤ d) (hd9 : d ≤ 9) : ∃! c : Fin 9, G r c = d := by
  obtain ⟨a, ha⟩ := unit_surj G hcons hrange hfull (fun x => (r, x))
    (fun x y hxy => congrArg Prod.snd hxy)
    (fun x y _ => Or.inl rfl) d hd1 hd9
  refine ⟨a, ha, ?_⟩
  intro b hb
  by_contra hne
  have hpne : ((r, b) : Fin 9 × Fin 9) ≠ (r, a) := fun h => hne (congrArg Prod.snd h)
  have hcontra := hcons (r, b) (r, a) hpne (Or.inl rfl) (hfull r b)
  exact hcontra (hb.trans ha.symm)

theorem col_exactly_once (G : Grid) (hcons : Consistent G) (hrange : InRange G)
    (hfull : ∀ i j : Fin 9, G i j ≠ 0) (c : Fin 9) (d : Nat)
    (hd1 : 1 ≤ d) (hd9 : d ≤ 9) : ∃! r : Fin 9, G r c = d := by
  obtain ⟨a, ha⟩ := unit_surj G hcons hrange hfull (fun x => (x, c))
    (fun x y hxy => congrArg Prod.fst hxy)
    (fun x y _ => Or.inr (Or.inl rfl)) d hd1 hd9
  refine ⟨a, ha, ?_⟩
  intro b hb
  by_contra hne
  have hpne : ((b, c) : Fin 9 × Fin 9) ≠ (a, c) := fun h => hne (congrArg Prod.fst h)
  have hcontra := hcons (b, c) (a, c) hpne (Or.inr (Or.inl rfl)) (hfull b c)
  exact hcontra (hb.trans ha.symm)

theorem box_exactly_once (G : Grid) (hcons : Consistent G) (hrange : InRange G)
    (hfull : ∀ i j : Fin 9, G i j ≠ 0) (bi bj : Fin 3) (d : Nat)
    (hd1 : 1 ≤ d) (hd9 : d ≤ 9) :
    ∃! p : Fin 9 × Fin 9, p.1.val / 3 = bi.val ∧ p.2.val / 3 = bj.val ∧ G p.1 p.2 = d := by
  have hb1 : ∀ a : Fin 9, 3 * bi.val + a.val / 3 < 9 := by
    intro a
    have := bi.isLt
    have := a.isLt
    omega
  have hb2 : ∀ a : Fin 9, 3 * bj.val + a.val % 3 < 9 := by
    intro a
    have := bj.isLt
    have := a.isLt
    omega
  obtain ⟨a, ha⟩ := unit_surj G hcons hrange hfull
    (fun a => (⟨3 * bi.val + a.val / 3, hb1 a⟩, ⟨3 * bj.val + a.val % 3, hb2 a⟩))
    (by
      intro x y hxy
      have h1 : 3 * bi.val + x.val / 3 = 3 * bi.val + y.val / 3 :=
        congrArg (fun p : Fin 9 × Fin 9 => p.1.val) hxy
      have h2 : 3 * bj.val + x.val % 3 = 3 * bj.val + y.val % 3 :=
        congrArg (fun p : Fin 9 × Fin 9 => p.2.val) hxy
      have := x.isLt
      have := y.isLt
      exact Fin.ext (by omega))
    (by
      intro x y _
      refine Or.inr (Or.inr ⟨?_, ?_⟩)
      · show (3 * bi.val + x.val / 3) / 3 = (3 * bi.val + y.val / 3) / 3
        have := x.isLt
        have := y.isLt
        have := bi.isLt
        omega
      · show (3 * bj.val + x.val % 3) / 3 = (3 * bj.val + y.val % 3) / 3
        have := x.isLt
        have := y.isLt
        have := bj.isLt
        omega)
    d hd1 hd9
  have hq1 : ((⟨3 * bi.val + a.val / 3, hb1 a⟩ : Fin 9)).val / 3 = bi.val := by
    show (3 * bi.val + a.val / 3) / 3 = bi.val
    have := a.isLt
    omega
  have hq2 : ((⟨3 * bj.val + a.val % 3, hb2 a⟩ : Fin 9)).val / 3 = bj.val := by
    show (3 * bj.val + a.val % 3) / 3 = bj.val
    have := a.isLt
    omega
  refine ⟨(⟨3 * bi.val + a.val / 3, hb1 a⟩, ⟨3 * bj.val + a.val % 3, hb2 a⟩),
    ⟨hq1, hq2, ha⟩, ?_⟩
  intro q hq
  obtain ⟨hqa, hqb, hqd⟩ := hq
  by_contra hne
  have hunit : sameUnit q (⟨3 * bi.val + a.val / 3, hb1 a⟩, ⟨3 * bj.val + a.val % 3, hb2 a⟩) := by
    refine Or.inr (Or.inr ⟨?_, ?_⟩)
    · rw [hqa]
      exact hq1.symm
    · rw [hqb]
      exact hq2.symm
  have hcontra := hcons q _ hne hunit (by rw [hqd]; omega)
  exact hcontra (hqd.trans ha.symm)

theorem completes_candidate (g G : Grid) (hG : Completes g G) (r c : Fin 9)
    (h0 : g r c = 0) : candidates g r c ≠ [] := by
  obtain ⟨hext, hfull, hrange, hcons⟩ := hG
  have hm1 : 1 ≤ G r c := by
    have := hfull r c
    omega
  have hm9 : G r c ≤ 9 := hrange r c
  have hvalid : is_valid g r c (G r c) = true := by
    rw [is_valid_true_iff]
    intro hap
    rw [appears_iff_unit] at hap
    obtain ⟨q, hq, hval⟩ := hap
    by_cases hqrc : q = (r, c)
    · have hval' : g r c = G r c := by
        rw [hqrc] at hval
        exact hval
      omega
    · have hq0 : g q.1 q.2 ≠ 0 := by
        rw [hval]
        omega
      have hGq : G q.1 q.2 = g q.1 q.2 := hext q.1 q.2 hq0
      have hne : ((r, c) : Fin 9 × Fin 9) ≠ q := fun h => hqrc h.symm
      have hcontra := hcons (r, c) q hne hq (hfull r c)
      exact hcontra (by rw [hGq, hval])
  have hmem : G r c ∈ candidates g r c :=
    (mem_candidates g r c (G r c)).mpr ⟨hm1, hm9, hvalid⟩
  intro hnil
  rw [hnil] at hmem
  exact absurd hmem (List.not_mem_nil _)

theorem rows_getD (vals : List Nat) (hlen : vals.length = 81) (i j : Fin 9) :
    (((List.range 9).map (fun k => (vals.drop (k * 9)).take 9)).getD i.val []).getD j.val 0 =
      vals.getD (i.val * 9 + j.val) 0 := by
  have hi := i.isLt
  have hj := j.isLt
  have hrows : ((List.range 9).map (fun k => (vals.drop (k * 9)).take 9)).getD i.val [] =
      (vals.drop (i.val * 9)).take 9 := by
    rw [List.getD_eq_getElem _ _ (by
      rw [List.length_map, List.length_range]
      omega)]
    rw [List.getElem_map, List.getElem_range]
  rw [hrows]
  have htlen : ((vals.drop (i.val * 9)).take 9).length = 9 := by
    rw [List.length_take, List.length_drop, hlen]
    omega
  rw [List.getD_eq_getElem _ _ (by omega : j.val < ((vals.drop (i.val * 9)).take 9).length)]
  rw [List.getD_eq_getElem _ _ (by omega : i.val * 9 + j.val < vals.length)]
  rw [List.getElem_take, List.getElem_drop]

/-- C1 (amended): for every 9x9 input grid whose cells hold values at most 9 and
whose placed digits are mutually consistent (no digit occurs twice in any row,
column, or box), if `solve` returns true then the grid it leaves behind is
completely filled and every row, every column, and every 3x3 box contains each
of the digits 1-9 exactly once. -/
theorem solve_valid (g : Grid) (hcons : Consistent g) (hrange : InRange g)
    (hs : (solve g).1 = true) :
    (∀ i j : Fin 9, (solve g).2 i j ≠ 0) ∧
      (∀ r : Fin 9, ∀ d : Nat, 1 ≤ d → d ≤ 9 → ∃! c : Fin 9, (solve g).2 r c = d) ∧
      (∀ c : Fin 9, ∀ d : Nat, 1 ≤ d → d ≤ 9 → ∃! r : Fin 9, (solve g).2 r c = d) ∧
      (∀ bi bj : Fin 3, ∀ d : Nat, 1 ≤ d → d ≤ 9 →
        ∃! p : Fin 9 × Fin 9, p.1.val / 3 = bi.val ∧ p.2.val / 3 = bj.val ∧
          (solve g).2 p.1 p.2 = d) := by
  have hfull : ∀ i j : Fin 9, (solve g).2 i j ≠ 0 :=
    solveWith_full find_empty_with_fewest_candidates
      (fun g' h => (find_none_iff g').mp h) 82 g hs
  have hinv : Consistent (solve g).2 ∧ InRange (solve g).2 :=
    solveWith_inv find_empty_with_fewest_candidates find_some 82 g ⟨hcons, hrange⟩ hs
  refine ⟨hfull, ?_, ?_, ?_⟩
  · intro r d hd1 hd9
    exact row_exactly_once (solve g).2 hinv.1 hinv.2 hfull r d hd1 hd9
  · intro c d hd1 hd9
    exact col_exactly_once (solve g).2 hinv.1 hinv.2 hfull c d hd1 hd9
  · intro bi bj d hd1 hd9
    exact box_exactly_once (solve g).2 hinv.1 hinv.2 hfull bi bj d hd1 hd9

/-- C1 counterexample: on the completely filled but invalid all-ones grid,
`solve` returns true yet row 0 does not contain the digit 1 exactly once (it
holds it in all nine cells), refuting the claim's "no precondition on the
input, also for conflicting givens" reading. -/
theorem solve_valid_cex :
    (solve onesGrid).1 = true ∧
      ¬ (∀ r : Fin 9, ∀ d : Nat, 1 ≤ d → d ≤ 9 →
          ∃! c : Fin 9, (solve onesGrid).2 r c = d) := by
  refine ⟨by decide, fun h => ?_⟩
  obtain ⟨c0, hc0, huniq⟩ := h 0 1 (le_refl 1) (by omega)
  have h01 : (0 : Fin 9) = c0 := huniq 0 (by decide)
  have h11 : (1 : Fin 9) = c0 := huniq 1 (by decide)
  exact absurd (h01.trans h11.symm) (by decide)

/-- C1 witness: the amended theorem applied to a concrete near-complete
consistent grid on which the solver succeeds. -/
theorem solve_valid_witness :
    (∀ i j : Fin 9, (solve nearGrid).2 i j ≠ 0) ∧
      (∀ r : Fin 9, ∀ d : Nat, 1 ≤ d → d ≤ 9 → ∃! c : Fin 9, (solve nearGrid).2 r c = d) ∧
      (∀ c : Fin 9, ∀ d : Nat, 1 ≤ d → d ≤ 9 → ∃! r : Fin 9, (solve nearGrid).2 r c = d) ∧
      (∀ bi bj : Fin 3, ∀ d : Nat, 1 ≤ d → d ≤ 9 →
        ∃! p : Fin 9 × Fin 9, p.1.val / 3 = bi.val ∧ p.2.val / 3 = bj.val ∧
          (solve nearGrid).2 p.1 p.2 = d) :=
  solve_valid nearGrid (by decide) (by decide) (by decide)

/-- C2 (amended): for every 9x9 input grid with cells at most 9 whose placed
digits contain no immediate rule violation, if the grid admits no valid
completion then `solve` returns false — it never reports a false success on
such a grid. -/
theorem solve_unsat (g : Grid) (hcons : Consistent g) (hrange : InRange g)
    (hnc : ∀ G : Grid, ¬ Completes g G) : (solve g).1 = false := by
  cases hb : (solve g).1
  · rfl
  · exfalso
    have hfull := solveWith_full find_empty_with_fewest_candidates
      (fun g' h => (find_none_iff g').mp h) 82 g hb
    have hinv := solveWith_inv find_empty_with_fewest_candidates find_some 82 g
      ⟨hcons, hrange⟩ hb
    have hext := solveWith_extends find_empty_with_fewest_candidates
      (fun g' r c cand h => (find_some g' r c cand h).1) 82 g hb
    exact hnc (solve g).2 ⟨hext, hfull, hinv.2, hinv.1⟩

/-- C2 counterexample: the all-ones grid has an immediate rule violation (the
digit 1 placed twice in row 0, among others) and hence no valid completion, yet
`solve` returns true on it. -/
theorem solve_unsat_cex :
    onesGrid 0 0 = 1 ∧ onesGrid 0 1 = 1 ∧ (solve onesGrid).1 = true :=
  ⟨rfl, rfl, by decide⟩

/-- C2 witness: the amended theorem applied to the concrete dead-end grid; the
absence of any valid completion follows from its zero-candidate cell (0,8). -/
theorem solve_unsat_witness : (solve deadGrid).1 = false :=
  solve_unsat deadGrid (by decide) (by decide)
    (fun G hG => completes_candidate deadGrid G hG 0 8 (by decide)
      (by decide : candidates deadGrid 0 8 = []))

/-- C3: if `solve` returns true, every originally non-empty cell keeps its
original value in the resulting grid — the solver writes only to cells that
were empty in the input. -/
theorem solve_preserves (g : Grid) (i j : Fin 9) (hs : (solve g).1 = true)
    (hij : g i j ≠ 0) : (solve g).2 i j = g i j :=
  solveWith_extends find_empty_with_fewest_candidates
    (fun g' r c cand h => (find_some g' r c cand h).1) 82 g hs i j hij

/-- C3 witness: concrete instance at the near-complete grid, cell (1,1). -/
theorem solve_preserves_witness : (solve nearGrid).2 1 1 = nearGrid 1 1 :=
  solve_preserves nearGrid 1 1 (by decide) (by decide)

/-- C4 (amended): `is_valid` returns false precisely when the digit already
appears somewhere in the scanned row, column, or box — a scan that includes the
queried cell itself, so in general the result depends on the queried cell's
stored value; whenever the queried cell is empty (as in every call the solver
makes) the result coincides with the scan over all the other cells, hence does
not then depend on the queried cell. -/
theorem is_valid_spec (g : Grid) (r c : Fin 9) (n : Nat) :
    (is_valid g r c n = false ↔ appears g r c n) ∧
      (g r c = 0 → 1 ≤ n → (is_valid g r c n = false ↔ appearsElsewhere g r c n)) := by
  refine ⟨is_valid_false_iff g r c n, ?_⟩
  intro h0 hn
  rw [is_valid_false_iff g r c n]
  constructor
  · rintro (⟨x, hx⟩ | ⟨x, hx⟩ | ⟨i, j, hi, hj, hij⟩)
    · refine Or.inl ⟨x, ?_, hx⟩
      intro hxc
      rw [hxc] at hx
      omega
    · refine Or.inr (Or.inl ⟨x, ?_, hx⟩)
      intro hxr
      rw [hxr] at hx
      omega
    · refine Or.inr (Or.inr ⟨i, j, ?_, hi, hj, hij⟩)
      rintro ⟨hir, hjc⟩
      rw [hir, hjc] at hij
      omega
  · rintro (⟨x, _, hx⟩ | ⟨x, _, hx⟩ | ⟨i, j, _, hi, hj, hij⟩)
    · exact Or.inl ⟨x, hx⟩
    · exact Or.inr (Or.inl ⟨x, hx⟩)
    · exact Or.inr (Or.inr ⟨i, j, hi, hj, hij⟩)

/-- C4 counterexample: the result of `is_valid` does depend on the value stored
at the queried cell itself: on the empty grid, writing 5 into (0,0) flips the
answer of the query at (0,0) for digit 5, though no other cell changed. -/
theorem is_valid_spec_cex :
    (∀ i j : Fin 9, ¬(i = 0 ∧ j = 0) → setCell zeroGrid 0 0 5 i j = zeroGrid i j) ∧
      is_valid (setCell zeroGrid 0 0 5) 0 0 5 = false ∧
      is_valid zeroGrid 0 0 5 = true := by
  refine ⟨?_, by decide, by decide⟩
  intro i j h
  exact setCell_other zeroGrid 0 0 5 i j h

/-- C4 witness: the amended equivalences instantiated at a concrete grid and an
empty queried cell. -/
theorem is_valid_spec_witness :
    (is_valid (setCell zeroGrid 0 0 5) 0 1 5 = false ↔
        appears (setCell zeroGrid 0 0 5) 0 1 5) ∧
      (is_valid (setCell zeroGrid 0 0 5) 0 1 5 = false ↔
        appearsElsewhere (setCell zeroGrid 0 0 5) 0 1 5) :=
  ⟨(is_valid_spec (setCell zeroGrid 0 0 5) 0 1 5).1,
   (is_valid_spec (setCell zeroGrid 0 0 5) 0 1 5).2 (by decide) (by decide)⟩

/-- C5 (amended): on a grid with a zero-candidate empty cell the selector always
returns some cell whose candidate list has at most one element — the first
zero-candidate cell reached with the empty list, unless an earlier
single-candidate cell exits the scan first; it never reports puzzle complete. -/
theorem find_dead_spec (g : Grid) (h : DeadCase g) :
    ∃ r c cand, find_empty_with_fewest_candidates g = some (r, c, cand) ∧
      cand.length ≤ 1 := by
  obtain ⟨r, c, h0, hc⟩ := h
  exact find_go_dead g allCells none ⟨(r, c), mem_allCells _, h0, hc⟩

/-- C5 counterexample: `earlyExitGrid` has the zero-candidate empty cell (8,8),
but the selector returns cell (0,0) with the non-empty candidate list [1],
because the single-candidate early exit fires before the scan reaches (8,8). -/
theorem find_dead_cex :
    DeadCase earlyExitGrid ∧
      find_empty_with_fewest_candidates earlyExitGrid = some (0, 0, [1]) :=
  ⟨by decide, by decide⟩

/-- C5 witness: the amended theorem instantiated at the same concrete grid. -/
theorem find_dead_witness :
    ∃ r c cand, find_empty_with_fewest_candidates earlyExitGrid = some (r, c, cand) ∧
      cand.length ≤ 1 :=
  find_dead_spec earlyExitGrid (by decide)

/-- C6: the two early exits of the MRV selector do not change the solver's
result: on every input grid, the solver with the source selector and the
variant solver whose selector performs the full row-major scan (minimum
candidate count, earliest tie) without either early exit return the same
success flag and leave the grid in the same final state. -/
theorem solve_selector_equiv (g : Grid) : solve g = solve_full_scan g :=
  solveWith_eq_full_scan 82 g

/-- C7: if `solve` returns false, the grid is left exactly equal to the input:
every tentative placement made during the failed search was undone, the chosen
cell being reset to empty after each failed candidate, including the last. -/
theorem solve_restores (g : Grid) (hf : (solve g).1 = false) : (solve g).2 = g :=
  solveWith_restore find_empty_with_fewest_candidates
    (fun g' r c cand h => (find_some g' r c cand h).1) 82 g hf

/-- C7 witness: concrete instance at the unsolvable dead-end grid. -/
theorem solve_restores_witness : (solve deadGrid).2 = deadGrid :=
  solve_restores deadGrid (by decide)

/-- C8: on any completely filled grid the cell selector reports puzzle complete
(the distinguished none result), no placement is attempted, and `solve` returns
true with every cell unchanged. -/
theorem solve_full_grid (g : Grid) (h : ∀ i j : Fin 9, g i j ≠ 0) :
    solve g = (true, g) ∧ find_empty_with_fewest_candidates g = none := by
  have hsel : find_empty_with_fewest_candidates g = none := (find_none_iff g).mpr h
  refine ⟨?_, hsel⟩
  show solveWith find_empty_with_fewest_candidates 82 g = (true, g)
  rw [show (82 : Nat) = 81 + 1 from rfl]
  exact solveWith_succ_none find_empty_with_fewest_candidates 81 g hsel

/-- C8 witness: applied to a concrete fully solved valid grid. -/
theorem solve_full_grid_witness :
    solve solvedGrid = (true, solvedGrid) ∧
      find_empty_with_fewest_candidates solvedGrid = none :=
  solve_full_grid solvedGrid (by decide)

/-- C9: the search terminates with recursion depth bounded by 81: the number of
empty cells is at most 81, each recursive call strictly decreases it (the caller
fills one empty cell before recursing), and any fuel exceeding the number of
empty cells produces the very result of `solve`. -/
theorem solve_terminates (g : Grid) :
    emptyCount g ≤ 81 ∧
      (∀ r c : Fin 9, ∀ n : Nat, g r c = 0 → n ≠ 0 →
        emptyCount (setCell g r c n) < emptyCount g) ∧
      (∀ fuel : Nat, emptyCount g < fuel → solveGo fuel g = solve g) := by
  refine ⟨emptyCount_le g, fun r c n h0 hn => emptyCount_setCell_lt g r c n h0 hn, ?_⟩
  intro fuel hfuel
  have h81 := emptyCount_le g
  exact solveWith_fuel_mono find_empty_with_fewest_candidates find_some fuel 82 g
    hfuel (by omega)

/-- C9 witness: the three conjuncts instantiated at a concrete grid, with the
empty-cell, nonzero-digit and fuel hypotheses discharged there. -/
theorem solve_terminates_witness :
    emptyCount nearGrid ≤ 81 ∧
      emptyCount (setCell nearGrid 0 0 1) < emptyCount nearGrid ∧
      solveGo 100 nearGrid = solve nearGrid :=
  ⟨(solve_terminates nearGrid).1,
   (solve_terminates nearGrid).2.1 0 0 1 (by decide) (by decide),
   (solve_terminates nearGrid).2.2 100 (by decide)⟩

/-- C10: `parse_input` fails precisely when the number of digit or dot
characters of the text differs from 81 (all other characters being ignored),
and on success cell (i, j) of the returned grid holds the value of the
(9 i + j)-th filtered character: 0 for a '0' or '.', its digit value
otherwise. -/
theorem parse_input_spec (text : List Char) :
    (parse_input text = none ↔
        (text.filter (fun ch => ch ∈ puzAlphabet)).length ≠ 81) ∧
      ((text.filter (fun ch => ch ∈ puzAlphabet)).length = 81 →
        parse_input text = some (fun i j =>
          charVal ((text.filter (fun ch => ch ∈ puzAlphabet)).getD
            (i.val * 9 + j.val) '0'))) := by
  constructor
  · unfold parse_input
    by_cases h : (text.filter (fun ch => ch ∈ puzAlphabet)).length = 81
    · rw [if_pos h]
      simp [h]
    · rw [if_neg h]
      simp [h]
  · intro h
    unfold parse_input
    rw [if_pos h]
    congr 1
    funext i j
    have hlen : ((text.filter (fun ch => ch ∈ puzAlphabet)).map charVal).length = 81 := by
      rw [List.length_map, h]
    rw [rows_getD ((text.filter (fun ch => ch ∈ puzAlphabet)).map charVal) hlen i j]
    have hi := i.isLt
    have hj := j.isLt
    have hidx : i.val * 9 + j.val < (text.filter (fun ch => ch ∈ puzAlphabet)).length := by
      omega
    rw [List.getD_eq_getElem ((text.filter (fun ch => ch ∈ puzAlphabet)).map charVal) 0
      (by rw [hlen]; omega)]
    rw [List.getD_eq_getElem (text.filter (fun ch => ch ∈ puzAlphabet)) '0' hidx]
    rw [List.getElem_map]

/-- C10 witness: the success case at a concrete 82-character text whose one
non-puzzle character is filtered out, leaving exactly 81 dots. -/
theorem parse_input_spec_witness :
    parse_input ('x' :: List.replicate 81 '.') = some (fun i j =>
      charVal ((('x' :: List.replicate 81 '.').filter
        (fun ch => ch ∈ puzAlphabet)).getD (i.val * 9 + j.val) '0')) :=
  (parse_input_spec ('x' :: List.replicate 81 '.')).2 (by decide)

end Sudoku
